import Mathlib

/-!
Verification of the Diffuser simulation kernel.

Shallow embedding of the repository's grid data structure (`src/matrix.rs`),
the per-frame update of the diffusion engine (`src/model.rs`), the grayscale
projector (`Model::draw`), and the superseded nannou-era variant of the grid
(`nannou src/matrix.rs`).  Cell values (`f32` in the source) are embedded as
rationals; machine-integer indices (`usize` / `isize`) are embedded as
`Nat` / `Int`, which is faithful at the grid sizes the program works with.
-/

namespace Diffuser

/-- Modelled from the spec: `constants.rs` is referenced by `main.rs` and
`model.rs` but is not under `src/`.  §6 gives `DEFAULT_MAX_VALUE` (clamp
ceiling) as 1.0 by convention. -/
def DEFAULT_MAX_VALUE : ℚ := 1

/-- Modelled from the spec: `constants.rs` is not under `src/`.  §4.3 gives
the spillover threshold as a small positive constant, e.g. `1e-3`. -/
def DEFAULT_VALUE_CUTOFF : ℚ := 1 / 1000

/-- Modelled from the spec: `constants.rs` is not under `src/`.  §6 names
`DEFAULT_DECAY_FACTOR` a decay rate per second but gives no value; the claims
under verification do not depend on the value, only on the formula in which
it occurs, so an arbitrary positive constant is used. -/
def DEFAULT_DECAY_FACTOR : ℚ := 1 / 10

/-- The eight compass directions of `src/matrix.rs` (same variants as the
nannou-era `Direction`). -/
inductive Direction where
  | NorthWest
  | North
  | NorthEast
  | West
  | East
  | SouthEast
  | South
  | SouthWest
deriving DecidableEq, Repr

/-- `Matrix2D` of `src/matrix.rs`: a row-major vector of cells plus its
dimensions. -/
structure Matrix2D where
  cells : List ℚ
  width : ℕ
  height : ℕ
deriving DecidableEq, Repr

/-- `Matrix2D::new(height, width)`: `height * width` cells, all `0.0`. -/
def Matrix2D.new (height width : ℕ) : Matrix2D :=
  { cells := List.replicate (height * width) 0, width := width, height := height }

/-- `calculate_index_from_xy` of `src/matrix.rs` (the `height` parameter is
unused in the source as well). -/
def calculate_index_from_xy (x y : ℕ) (_height width : ℕ) : ℕ :=
  x + width * y

/-- `Matrix2D::get`: computes the linear index and does a bounds-checked
lookup against the cell vector. -/
def Matrix2D.get (m : Matrix2D) (x y : ℕ) : Option ℚ :=
  m.cells.get? (calculate_index_from_xy x y m.height m.width)

/-- `Matrix2D::get_by_index`. -/
def Matrix2D.get_by_index (m : Matrix2D) (index : ℕ) : Option ℚ :=
  m.cells.get? index

/-- `*matrix.get_mut_by_index(i).unwrap() = v`, embedded as a functional
update; `List.set` is a no-op out of range, where the source's `expect`
would panic. -/
def Matrix2D.set_by_index (m : Matrix2D) (index : ℕ) (v : ℚ) : Matrix2D :=
  { m with cells := m.cells.set index v }

/-- `index_is_in_range` of `src/matrix.rs`.  Rust `&&` of two comparisons is
embedded as `decide` of the conjunction. -/
def index_is_in_range (index height width : ℤ) : Bool :=
  decide (0 ≤ index ∧ index < height * width)

/-- `index_is_in_first_row` of `src/matrix.rs`. -/
def index_is_in_first_row (index _height width : ℤ) : Bool :=
  decide (0 ≤ index ∧ index < width)

/-- `index_is_in_last_row` of `src/matrix.rs`. -/
def index_is_in_last_row (index height width : ℤ) : Bool :=
  decide (width * (height - 1) ≤ index ∧ index < width * height)

/-- `index_is_in_first_column` of `src/matrix.rs`.  Rust `%` on the
nonnegative arguments occurring at every call site agrees with `Int.emod`. -/
def index_is_in_first_column (index height width : ℤ) : Bool :=
  index_is_in_range index height width && decide (index % width = 0)

/-- `index_is_in_last_column` of `src/matrix.rs`. -/
def index_is_in_last_column (index height width : ℤ) : Bool :=
  index_is_in_range index height width && decide ((index + 1) % width = 0)

/-- `index_to_the_north` of `src/matrix.rs`. -/
def index_to_the_north (index height width : ℤ) : ℤ :=
  if index_is_in_range index height width && !index_is_in_first_row index height width then
    index - width
  else
    -1

/-- `index_to_the_south` of `src/matrix.rs`. -/
def index_to_the_south (index height width : ℤ) : ℤ :=
  if index_is_in_range index height width && !index_is_in_last_row index height width then
    index + width
  else
    -1

/-- `index_to_the_west` of `src/matrix.rs`. -/
def index_to_the_west (index height width : ℤ) : ℤ :=
  if !index_is_in_first_column index height width then
    index - 1
  else
    -1

/-- `index_to_the_east` of `src/matrix.rs`. -/
def index_to_the_east (index height width : ℤ) : ℤ :=
  if !index_is_in_last_column index height width then
    index + 1
  else
    -1

/-- `index_to_the_northwest` of `src/matrix.rs`: the source matches on the
pair (first-column test, north index) with guard `north_index != -1`. -/
def index_to_the_northwest (index height width : ℤ) : ℤ :=
  let north_index := index_to_the_north index height width
  if index_is_in_first_column index height width = false ∧ north_index ≠ -1 then
    north_index - 1
  else
    -1

/-- `index_to_the_northeast` of `src/matrix.rs`. -/
def index_to_the_northeast (index height width : ℤ) : ℤ :=
  let north_index := index_to_the_north index height width
  if index_is_in_last_column index height width = false ∧ north_index ≠ -1 then
    north_index + 1
  else
    -1

/-- `index_to_the_southwest` of `src/matrix.rs`. -/
def index_to_the_southwest (index height width : ℤ) : ℤ :=
  let south_index := index_to_the_south index height width
  if index_is_in_first_column index height width = false ∧ south_index ≠ -1 then
    south_index - 1
  else
    -1

/-- `index_to_the_southeast` of `src/matrix.rs`. -/
def index_to_the_southeast (index height width : ℤ) : ℤ :=
  let south_index := index_to_the_south index height width
  if index_is_in_last_column index height width = false ∧ south_index ≠ -1 then
    south_index + 1
  else
    -1

/-- `Matrix2D::get_neighbour_index` of `src/matrix.rs`: dispatch on the
direction, then discard results outside `0..=cells.len()`. -/
def Matrix2D.get_neighbour_index (m : Matrix2D) (index : ℕ) (direction : Direction) : Option ℕ :=
  let i : ℤ := (index : ℤ)
  let width : ℤ := (m.width : ℤ)
  let height : ℤ := (m.height : ℤ)
  let neighbour_index : ℤ :=
    match direction with
    | .NorthWest => index_to_the_northwest i height width
    | .North => index_to_the_north i height width
    | .NorthEast => index_to_the_northeast i height width
    | .West => index_to_the_west i height width
    | .East => index_to_the_east i height width
    | .SouthEast => index_to_the_southeast i height width
    | .South => index_to_the_south i height width
    | .SouthWest => index_to_the_southwest i height width
  if neighbour_index < 0 ∨ neighbour_index > (m.cells.length : ℤ) then
    none
  else
    some neighbour_index.toNat

/-- `get_neighbouring_cell_mut(index, d).map(|v| *v += s)` on the modifier
matrix (`src/model.rs`): resolve the neighbour index, then add the spillover
to that cell if the lookup succeeds. -/
def add_spill (m : Matrix2D) (index : ℕ) (s : ℚ) (d : Direction) : Matrix2D :=
  match m.get_neighbour_index index d with
  | some neighbour_index =>
    match m.cells.get? neighbour_index with
    | some v => { m with cells := m.cells.set neighbour_index (v + s) }
    | none => m
  | none => m

end Diffuser

namespace Nannou

open Diffuser (Direction Matrix2D)

/-- `index_calculator` of `nannou src/matrix.rs`. -/
def index_calculator (x y width : ℕ) : ℕ :=
  x + width * y

/-- `xy_calculator` of `nannou src/matrix.rs` (as written in the source:
`(index / width, index % width)`). -/
def xy_calculator (index width : ℕ) : ℕ × ℕ :=
  (index / width, index % width)

/-- `index_to_the_northwest` of `nannou src/matrix.rs`. -/
def index_to_the_northwest (index width : ℤ) : ℤ :=
  if index % width = 0 then -1 else index - 1 - width

/-- `index_to_the_north` of `nannou src/matrix.rs`. -/
def index_to_the_north (index width : ℤ) : ℤ :=
  index - width

/-- `index_to_the_northeast` of `nannou src/matrix.rs`. -/
def index_to_the_northeast (index width : ℤ) : ℤ :=
  if (index + 1) % width = 0 then -1 else index + 1 - width

/-- `index_to_the_west` of `nannou src/matrix.rs`. -/
def index_to_the_west (index width : ℤ) : ℤ :=
  if index % width = 0 then -1 else index - 1

/-- `index_to_the_east` of `nannou src/matrix.rs`. -/
def index_to_the_east (index width : ℤ) : ℤ :=
  if (index + 1) % width = 0 then -1 else index + 1

/-- `index_to_the_southeast` of `nannou src/matrix.rs`. -/
def index_to_the_southeast (index width : ℤ) : ℤ :=
  if (index + 1) % width = 0 then -1 else index + 1 + width

/-- `index_to_the_south` of `nannou src/matrix.rs` (the source repeats the
north formula `index - width`). -/
def index_to_the_south (index width : ℤ) : ℤ :=
  index - width

/-- `index_to_the_southwest` of `nannou src/matrix.rs`. -/
def index_to_the_southwest (index width : ℤ) : ℤ :=
  if index % width = 0 then -1 else index - 1 + width

/-- `Matrix2D::get_neighbour_index` of `nannou src/matrix.rs`: same final
range filter as the later revision, but the per-direction helpers ignore the
grid height and use only modulo tests. -/
def get_neighbour_index (m : Matrix2D) (index : ℕ) (direction : Direction) : Option ℕ :=
  let i : ℤ := (index : ℤ)
  let width : ℤ := (m.width : ℤ)
  let neighbour_index : ℤ :=
    match direction with
    | .NorthWest => index_to_the_northwest i width
    | .North => index_to_the_north i width
    | .NorthEast => index_to_the_northeast i width
    | .West => index_to_the_west i width
    | .East => index_to_the_east i width
    | .SouthEast => index_to_the_southeast i width
    | .South => index_to_the_south i width
    | .SouthWest => index_to_the_southwest i width
  if neighbour_index < 0 ∨ neighbour_index > (m.cells.length : ℤ) then
    none
  else
    some neighbour_index.toNat

end Nannou

namespace Diffuser

/-- The spillover closure of `Model::update` (`src/model.rs`), acting on a
single base cell: above the cutoff the cell is divided by 9 and the resulting
(post-division) value is emitted as the spillover amount; otherwise the cell
is snapped to `0.0` with no spillover. -/
def spill_cell (value : ℚ) : ℚ × Option ℚ :=
  if DEFAULT_VALUE_CUTOFF < value then
    (value / 9, some (value / 9))
  else if value ≤ DEFAULT_VALUE_CUTOFF then
    (0, none)
  else
    (value, none)

/-- The `iter_mut().enumerate().filter_map(..)` pass of `Model::update`:
returns the mutated base cells together with the `(index, spillover)` pairs
the loop then consumes. -/
def spill_pass (cells : List ℚ) : List ℚ × List (ℕ × ℚ) :=
  (cells.map fun v => (spill_cell v).1,
   cells.enum.filterMap fun p => ((spill_cell p.2).2).map fun s => (p.1, s))

/-- The eight directions in the order the spillover loop of `Model::update`
iterates them. -/
def spill_directions : List Direction :=
  [.NorthWest, .North, .NorthEast, .West, .East, .SouthEast, .South, .SouthWest]

/-- The spillover scatter loop of `Model::update`: for every spilling cell,
add its spillover to each of its valid neighbours in the modifier matrix. -/
def scatter (modifier : Matrix2D) (spills : List (ℕ × ℚ)) : Matrix2D :=
  spills.foldl
    (fun m p => spill_directions.foldl (fun m2 d => add_spill m2 p.1 p.2 d) m)
    modifier

/-- Rust `f32::clamp(lo, hi)` (for `lo <= hi`): branch below, branch above,
otherwise identity. -/
def rclamp (x lo hi : ℚ) : ℚ :=
  if x < lo then lo else if x > hi then hi else x

/-- The merge loop of `Model::update` (`src/model.rs`): walk the modifier
cells in index order and, whenever the base matrix has a cell at that index,
replace it with `clamp(base + modifier - DEFAULT_DECAY_FACTOR * frame_time,
0.0, DEFAULT_MAX_VALUE)`. -/
def merge_base : List ℚ → List ℚ → ℚ → List ℚ
  | [], _, _ => []
  | b :: bs, [], _ => b :: bs
  | b :: bs, mv :: ms, frame_time =>
    rclamp (b + mv - DEFAULT_DECAY_FACTOR * frame_time) 0 DEFAULT_MAX_VALUE ::
      merge_base bs ms frame_time

/-- The `*mod_value = 0.0` reset performed by the same merge loop. -/
def reset_modifier (cells : List ℚ) : List ℚ :=
  cells.map fun _ => 0

/-- Rust `f32::round` (round half away from zero). -/
def rustRound (x : ℚ) : ℤ :=
  if 0 ≤ x then ⌊x + 1 / 2⌋ else -⌊-x + 1 / 2⌋

/-- Rust `as usize` applied to a rounded `f32`: negative values saturate
to zero. -/
def usize_of (x : ℚ) : ℕ :=
  (rustRound x).toNat

/-- Rust `as u8` applied to an `f32`: saturating, truncating toward zero. -/
def rust_as_u8 (x : ℚ) : ℕ :=
  if x < 0 then 0 else min 255 ⌊x⌋.toNat

/-- `Rect<usize>` of `src/rect.rs` (only the fields the kernel uses). -/
structure Rect where
  width : ℕ
  height : ℕ
deriving DecidableEq, Repr

/-- `Rect::<usize>::contains` of `src/rect.rs`:
`(0..height).contains(&y) && (0..width).contains(&x)`. -/
def Rect.contains (r : Rect) (x y : ℕ) : Bool :=
  decide (y < r.height) && decide (x < r.width)

/-- Round-half-up of the fraction `num / den`, on integers:
`⌊(2 * num + den) / (2 * den)⌋` (zero when the denominator is zero). -/
def iround (num : ℤ) (den : ℕ) : ℤ :=
  if den = 0 then 0 else (2 * num + den) / (2 * den)

/-- Modelled from the spec: the `line_drawing` crate's `Bresenham` iterator
used by `Model::update` is an external dependency, not under `src/`.  §4.2
specifies a standard digital line: a finite sequence of the grid cells the
segment between the endpoints passes through, inclusive of both endpoints,
in order from start to end.  Embedded as the rounded linear interpolation
over `max |dx| |dy| + 1` samples (for coincident endpoints `iround _ 0 = 0`,
so the single sample is the start point). -/
def bresenham (p q : ℤ × ℤ) : List (ℤ × ℤ) :=
  let dx := q.1 - p.1
  let dy := q.2 - p.2
  let n : ℕ := max dx.natAbs dy.natAbs
  (List.range (n + 1)).map fun (k : ℕ) =>
    (p.1 + iround ((k : ℤ) * dx) n, p.2 + iround ((k : ℤ) * dy) n)

/-- The clip test of the painting loop in `Model::update` (`src/model.rs`):
`line_x < 0 || line_y < 0 || line_x > w || line_y > h` (note `>` rather than
`>=`, exactly as in the source). -/
def line_skip (w h : ℕ) (q : ℤ × ℤ) : Bool :=
  decide (q.1 < 0) || decide (q.2 < 0) || decide (q.1 > (w : ℤ)) || decide (q.2 > (h : ℤ))

/-- The painting loop of `Model::update`: for every rasterized point, skip it
if the clip test fires, otherwise write `val` at its linear index. -/
def paint_line (base : Matrix2D) (w h : ℕ) (pts : List (ℤ × ℤ)) (val : ℚ) : Matrix2D :=
  pts.foldl
    (fun b q =>
      if line_skip w h q then b
      else b.set_by_index (calculate_index_from_xy q.1.toNat q.2.toNat h w) val)
    base

/-- The value painted by `Model::update`: `DEFAULT_MAX_VALUE` when the left
button is held, `0.0` when only the right one is (the remaining arm is
unreachable behind the held-down guard). -/
def paint_value (left right : Bool) : ℚ :=
  match left, right with
  | true, _ => DEFAULT_MAX_VALUE
  | _, true => 0
  | _, _ => 0

/-- `Model` of `src/model.rs`. -/
structure Model where
  base_matrix : Matrix2D
  left_click_is_held_down : Bool
  modifier_matrix : Matrix2D
  mouse_xy : ℚ × ℚ
  previous_mouse_xy : Option (ℚ × ℚ)
  right_click_is_held_down : Bool
  window_rect : Rect
deriving Repr

/-- The paint phase of `Model::update` (`src/model.rs`): when a button is
held and the rounded pointer position is inside the window rect, paint
either the single current cell (no previous position) or the rasterized line
from the previous position, and record the current position; otherwise clear
the recorded previous position. -/
def paint_phase (model : Model) : Model :=
  if model.left_click_is_held_down || model.right_click_is_held_down then
    let x := usize_of model.mouse_xy.1
    let y := usize_of model.mouse_xy.2
    if model.window_rect.contains x y then
      let val := paint_value model.left_click_is_held_down model.right_click_is_held_down
      match model.previous_mouse_xy with
      | some pxy =>
        let pts := bresenham (rustRound pxy.1, rustRound pxy.2) ((x : ℤ), (y : ℤ))
        { model with
          base_matrix :=
            paint_line model.base_matrix model.window_rect.width model.window_rect.height pts val,
          previous_mouse_xy := some model.mouse_xy }
      | none =>
        let index := calculate_index_from_xy x y model.window_rect.height model.window_rect.width
        { model with
          base_matrix := model.base_matrix.set_by_index index val,
          previous_mouse_xy := some model.mouse_xy }
    else
      { model with previous_mouse_xy := none }
  else
    { model with previous_mouse_xy := none }

/-- The diffusion phase of `Model::update`: spillover pass over the base
cells, scatter into the modifier matrix, then the merge-and-reset loop. -/
def diffusion_phase (base modifier : Matrix2D) (frame_time : ℚ) : Matrix2D × Matrix2D :=
  let spilled := spill_pass base.cells
  let modifier2 := scatter modifier spilled.2
  ({ base with cells := merge_base spilled.1 modifier2.cells frame_time },
   { modifier2 with cells := reset_modifier modifier2.cells })

/-- `Model::update` (`src/model.rs`): paint phase followed by the diffusion
phase.  The length-equality assertion at the top of the source function is a
precondition, not part of the state transformation. -/
def Model.update (model : Model) (frame_time : ℚ) : Model :=
  let m1 := paint_phase model
  let stepped := diffusion_phase m1.base_matrix m1.modifier_matrix frame_time
  { m1 with base_matrix := stepped.1, modifier_matrix := stepped.2 }

/-- The per-cell pixel mapping of `Model::draw` (`src/model.rs`):
`value = (value.min(1.0) * 255.0).round()`, then
`(255.0 - value).clamp(0.0, 255.0) as u8`, replicated into an opaque
grayscale RGBA pixel. -/
def draw_pixel (value : ℚ) : ℕ × ℕ × ℕ × ℕ :=
  let v1 : ℚ := ((rustRound (min value 1 * 255) : ℤ) : ℚ)
  let v2 : ℚ := rclamp (255 - v1) 0 255
  let l : ℕ := rust_as_u8 v2
  (l, l, l, 255)

example : (Matrix2D.new 3 6).get_neighbour_index 9 .South = some 15 := by decide
example : (Matrix2D.new 3 6).get_neighbour_index 9 .North = some 3 := by decide
example : (Matrix2D.new 3 6).get_neighbour_index 3 .North = none := by decide
example : (Matrix2D.new 3 6).get_neighbour_index 9 .NorthEast = some 4 := by decide
example : Nannou.get_neighbour_index (Matrix2D.new 3 6) 9 .South = some 3 := by decide
example : (Matrix2D.new 3 6).get 6 0 = some 0 := by decide
example : (spill_pass [1, 0]).2 = [(0, 1 / 9)] := by
  norm_num [spill_pass, spill_cell, DEFAULT_VALUE_CUTOFF, List.enum, List.enumFrom,
    List.filterMap]
example : (Matrix2D.new 1 2).get_neighbour_index 0 .East = some 1 := by decide
example : draw_pixel (1 / 2) = (127, 127, 127, 255) := by
  norm_num [draw_pixel, rustRound, rust_as_u8, rclamp, Int.toNat_ofNat]
  rfl
example : draw_pixel 1 = (0, 0, 0, 255) := by
  norm_num [draw_pixel, rustRound, rust_as_u8, rclamp, Int.toNat_ofNat]
example : draw_pixel 0 = (255, 255, 255, 255) := by
  norm_num [draw_pixel, rustRound, rust_as_u8, rclamp, Int.toNat_ofNat]
example : bresenham (0, 0) (3, 0) = [(0, 0), (1, 0), (2, 0), (3, 0)] := by decide
example : (0, 0) ∈ bresenham (0, 0) (5, 2) := by decide

/-- The spec's projector mapping (§4.4): `luma = 255 - round(clamp(value, 0, 1)
* 255)`, with Rust round and clamp semantics.  Stated from the spec's words,
for comparison with `draw_pixel`. -/
def luma_spec (v : ℚ) : ℕ :=
  (255 - rustRound (rclamp v 0 1 * 255)).toNat

/- General-purpose lemmas about the embedded primitives. -/

theorem rclamp_bounds (x lo hi : ℚ) (h : lo ≤ hi) :
    lo ≤ rclamp x lo hi ∧ rclamp x lo hi ≤ hi := by
  rw [rclamp]
  split_ifs with h1 h2
  · exact ⟨le_refl lo, h⟩
  · exact ⟨h, le_refl hi⟩
  · exact ⟨not_lt.1 h1, not_lt.1 h2⟩

theorem rustRound_nonneg {x : ℚ} (h : 0 ≤ x) : 0 ≤ rustRound x := by
  rw [rustRound, if_pos h]
  exact Int.floor_nonneg.2 (by linarith)

theorem rustRound_le_255 {x : ℚ} (h0 : 0 ≤ x) (h : x ≤ 255) : rustRound x ≤ 255 := by
  rw [rustRound, if_pos h0]
  have h1 : (⌊x + 1 / 2⌋ : ℤ) ≤ ⌊(255 : ℚ) + 1 / 2⌋ := Int.floor_le_floor (by linarith)
  have h2 : (⌊(255 : ℚ) + 1 / 2⌋ : ℤ) = 255 := by norm_num
  omega

theorem rustRound_nonpos {x : ℚ} (h : x ≤ 0) : rustRound x ≤ 0 := by
  rw [rustRound]
  split_ifs with h1
  · have hx0 : x = 0 := le_antisymm h h1
    subst hx0
    norm_num
  · have h2 : (0 : ℤ) ≤ ⌊-x + 1 / 2⌋ := Int.floor_nonneg.2 (by linarith)
    omega

theorem merge_base_get? (base modifier : List ℚ) (ft : ℚ) (i : ℕ)
    (hb : i < base.length) (hm : i < modifier.length) :
    (merge_base base modifier ft).get? i =
      some (rclamp (base.getD i 0 + modifier.getD i 0 - DEFAULT_DECAY_FACTOR * ft)
        0 DEFAULT_MAX_VALUE) := by
  induction base generalizing modifier i with
  | nil => simp at hb
  | cons b bs ih =>
    cases modifier with
    | nil => simp at hm
    | cons mv ms =>
      cases i with
      | zero => simp [merge_base]
      | succ n =>
        simp only [merge_base, List.get?_cons_succ, List.getD_cons_succ]
        exact ih ms n (by simpa using hb) (by simpa using hm)

theorem reset_modifier_get? (modifier : List ℚ) (i : ℕ) (hm : i < modifier.length) :
    (reset_modifier modifier).get? i = some 0 := by
  rw [reset_modifier, List.get?_map]
  obtain ⟨a, ha⟩ : ∃ a, modifier.get? i = some a := ⟨_, List.get?_eq_get hm⟩
  rw [ha]
  rfl

theorem merge_base_getD_bounds (base modifier : List ℚ) (ft : ℚ) (i : ℕ)
    (hb : i < base.length) (hm : i < modifier.length) :
    0 ≤ (merge_base base modifier ft).getD i 0 ∧
      (merge_base base modifier ft).getD i 0 ≤ DEFAULT_MAX_VALUE := by
  have h := merge_base_get? base modifier ft i hb hm
  rw [List.getD_eq_get?, h, Option.getD_some]
  exact rclamp_bounds _ 0 DEFAULT_MAX_VALUE (by norm_num [DEFAULT_MAX_VALUE])

/-- C2: in the merge step of the diffusion phase, every cell index `i` of the
base matrix in range of both buffers receives
`clamp(base[i] + accumulator[i] - DEFAULT_DECAY_FACTOR * frame_time, 0.0,
DEFAULT_MAX_VALUE)` — decay is subtractive and the result clamped to
`[0, MAX_VALUE]` — and the accumulator cell is then reset to `0.0`. -/
theorem merge_is_clamped_subtractive_decay (base modifier : List ℚ) (frame_time : ℚ)
    (i : ℕ) (hb : i < base.length) (hm : i < modifier.length) :
    (merge_base base modifier frame_time).get? i =
      some (rclamp (base.getD i 0 + modifier.getD i 0 - DEFAULT_DECAY_FACTOR * frame_time)
        0 DEFAULT_MAX_VALUE) ∧
    (reset_modifier modifier).get? i = some 0 :=
  ⟨merge_base_get? base modifier frame_time i hb hm, reset_modifier_get? modifier i hm⟩

/-- C2 witness: the merge formula evaluated on a concrete one-cell state. -/
theorem merge_is_clamped_subtractive_decay_witness :
    (merge_base [1 / 2] [2] 1).get? 0 =
      some (rclamp ([(1 : ℚ) / 2].getD 0 0 + [(2 : ℚ)].getD 0 0 - DEFAULT_DECAY_FACTOR * 1)
        0 DEFAULT_MAX_VALUE) ∧
    (reset_modifier [(2 : ℚ)]).get? 0 = some 0 :=
  merge_is_clamped_subtractive_decay [1 / 2] [2] 1 0 (by decide) (by decide)

/-- C3: for every starting base and accumulator state of equal length (the
length equality is asserted by the engine before every step) — including
accumulator values far above `MAX_VALUE` or negative — and every non-negative
frame time, after the merge step every base cell lies in
`[0, DEFAULT_MAX_VALUE]`. -/
theorem merge_result_in_range (base modifier : List ℚ) (frame_time : ℚ)
    (hlen : base.length = modifier.length) (hft : 0 ≤ frame_time)
    (i : ℕ) (hi : i < base.length) :
    0 ≤ (merge_base base modifier frame_time).getD i 0 ∧
      (merge_base base modifier frame_time).getD i 0 ≤ DEFAULT_MAX_VALUE :=
  merge_base_getD_bounds base modifier frame_time i hi (hlen ▸ hi)

/-- C3 witness: extreme accumulator values (far above `MAX_VALUE`, and
negative) still merge into `[0, MAX_VALUE]`. -/
theorem merge_result_in_range_witness :
    (0 ≤ (merge_base [5, -3] [100, 2] (1 / 2)).getD 0 0 ∧
      (merge_base [5, -3] [100, 2] (1 / 2)).getD 0 0 ≤ DEFAULT_MAX_VALUE) ∧
    (0 ≤ (merge_base [5, -3] [100, 2] (1 / 2)).getD 1 0 ∧
      (merge_base [5, -3] [100, 2] (1 / 2)).getD 1 0 ≤ DEFAULT_MAX_VALUE) :=
  ⟨merge_result_in_range [5, -3] [100, 2] (1 / 2) (by decide) (by norm_num) 0 (by decide),
   merge_result_in_range [5, -3] [100, 2] (1 / 2) (by decide) (by norm_num) 1 (by decide)⟩

/-- C1 counterexample: on a 1×2 grid with base `[1, 0]` the cell at index 0
(value 1, above the cutoff) spills; after the scatter its valid East
neighbour's accumulator cell holds the post-division value `1/9`, not the
pre-division value `1` the claim asserts. -/
theorem spillover_counterexample :
    DEFAULT_VALUE_CUTOFF < 1 ∧
    (scatter (Matrix2D.new 1 2) (spill_pass [1, 0]).2).cells.get? 1 = some (1 / 9) ∧
    ((1 : ℚ) / 9) ≠ 1 := by
  refine ⟨by norm_num [DEFAULT_VALUE_CUTOFF], ?_, by norm_num⟩
  have hsp : (spill_pass [1, 0]).2 = [(0, 1 / 9)] := by
    norm_num [spill_pass, spill_cell, DEFAULT_VALUE_CUTOFF, List.enum, List.enumFrom,
      List.filterMap]
  rw [hsp]
  simp only [scatter, spill_directions, List.foldl]
  norm_num [add_spill, Matrix2D.get_neighbour_index, Matrix2D.new,
    index_to_the_north, index_to_the_south, index_to_the_west, index_to_the_east,
    index_to_the_northwest, index_to_the_northeast, index_to_the_southwest,
    index_to_the_southeast, index_is_in_range, index_is_in_first_row,
    index_is_in_last_row, index_is_in_first_column, index_is_in_last_column,
    List.replicate, List.set]

/-- C1 (amended): for every base cell value `v` above the cutoff, the
spillover pass leaves `v / 9` in the cell and emits `v / 9` — the
post-division value — as the spillover, and the amount added to each valid
neighbour's accumulator cell is that same `v / 9`. -/
theorem spill_retains_and_spills_ninth (v : ℚ) (hv : DEFAULT_VALUE_CUTOFF < v)
    (m : Matrix2D) (i ni : ℕ) (d : Direction)
    (hn : m.get_neighbour_index i d = some ni) (hni : ni < m.cells.length) :
    (spill_cell v).1 = v / 9 ∧ (spill_cell v).2 = some (v / 9) ∧
    (add_spill m i (v / 9) d).cells.get? ni = some (m.cells.getD ni 0 + v / 9) := by
  have h1 : spill_cell v = (v / 9, some (v / 9)) := by rw [spill_cell, if_pos hv]
  refine ⟨by rw [h1], by rw [h1], ?_⟩
  have ha : m.cells.get? ni = some (m.cells.get ⟨ni, hni⟩) := List.get?_eq_get hni
  have hgetD : m.cells.getD ni 0 = m.cells.get ⟨ni, hni⟩ := by
    rw [List.getD_eq_get?, ha, Option.getD_some]
  rw [add_spill, hn]
  simp only [ha]
  rw [List.get?_set_eq_of_lt _ (by simpa using hni), hgetD]

/-- C1 amended witness: concrete instance on the 1×2 grid, cell 0 spilling
value 1 to its East neighbour. -/
theorem spill_retains_and_spills_ninth_witness :
    (spill_cell 1).1 = 1 / 9 ∧ (spill_cell 1).2 = some (1 / 9) ∧
    (add_spill (Matrix2D.new 1 2) 0 (1 / 9) .East).cells.get? 1 =
      some ((Matrix2D.new 1 2).cells.getD 1 0 + 1 / 9) :=
  spill_retains_and_spills_ninth 1 (by norm_num [DEFAULT_VALUE_CUTOFF])
    (Matrix2D.new 1 2) 0 1 .East (by decide) (by decide)

/-- C5 counterexample: on a 6-wide, 3-high grid, `get(6, 0)` has `x = width`
yet returns a cell (the one at linear index 6, which is row 1, column 0 — a
different row), where the claim requires `None`. -/
theorem get_aliases_counterexample :
    (Matrix2D.new 3 6).width ≤ 6 ∧ (Matrix2D.new 3 6).get 6 0 = some 0 := by
  decide

/-- C5 (amended): `get(x, y)` returns `None` iff the computed linear index
`x + width * y` is at least `width * height`; an `x ≥ width` with a small
enough `y` aliases into a later row instead of returning `None`. -/
theorem get_none_iff_linear_index (m : Matrix2D)
    (hlen : m.cells.length = m.width * m.height) (x y : ℕ) :
    m.get x y = none ↔ m.width * m.height ≤ x + m.width * y := by
  rw [Matrix2D.get, calculate_index_from_xy, List.get?_eq_none, hlen]

/-- C5 amended witness: a genuinely out-of-range linear index yields `None`. -/
theorem get_none_iff_linear_index_witness :
    (Matrix2D.new 3 6).get 0 3 = none :=
  (get_none_iff_linear_index (Matrix2D.new 3 6) (by decide) 0 3).mpr (by decide)

/-- C7 counterexample: a cell value of `0.5` produces the pixel
`(127, 127, 127, 255)` (`round(0.5 * 255) = round(127.5) = 128`, and
`255 - 128 = 127`), not `(128, 128, 128, 255)` as the claim states. -/
theorem draw_half_counterexample :
    draw_pixel (1 / 2) = (127, 127, 127, 255) ∧
    draw_pixel (1 / 2) ≠ (128, 128, 128, 255) := by
  have h : draw_pixel (1 / 2) = (127, 127, 127, 255) := by
    norm_num [draw_pixel, rustRound, rust_as_u8, rclamp, Int.toNat_ofNat]
    rfl
  exact ⟨h, by rw [h]; decide⟩

theorem draw_pixel_eq_luma_spec (v : ℚ) :
    draw_pixel v = (luma_spec v, luma_spec v, luma_spec v, 255) := by
  rcases le_or_lt 0 v with h0 | h0
  · have hmin : min v 1 = rclamp v 0 1 := by
      rw [rclamp]
      split_ifs with h1 h2
      · linarith
      · exact min_eq_right h2.le
      · exact min_eq_left (not_lt.1 h2)
    have hc := rclamp_bounds v 0 1 (by norm_num)
    have harg1 : 0 ≤ rclamp v 0 1 * 255 := by nlinarith [hc.1]
    have harg2 : rclamp v 0 1 * 255 ≤ 255 := by nlinarith [hc.2]
    have ha1 : 0 ≤ rustRound (rclamp v 0 1 * 255) := rustRound_nonneg harg1
    have ha2 : rustRound (rclamp v 0 1 * 255) ≤ 255 := rustRound_le_255 harg1 harg2
    set a := rustRound (rclamp v 0 1 * 255) with hadef
    have ha1q : (0 : ℚ) ≤ (a : ℚ) := by exact_mod_cast ha1
    have ha2q : ((a : ℚ)) ≤ 255 := by exact_mod_cast ha2
    simp only [draw_pixel, luma_spec, hmin, ← hadef]
    have hcl : rclamp (255 - (a : ℚ)) 0 255 = 255 - (a : ℚ) := by
      rw [rclamp, if_neg (by linarith), if_neg (by linarith)]
    rw [hcl]
    have hufl : rust_as_u8 (255 - (a : ℚ)) = (255 - a).toNat := by
      rw [rust_as_u8, if_neg (by linarith)]
      have hfl : (⌊(255 : ℚ) - (a : ℚ)⌋ : ℤ) = 255 - a := by
        rw [show ((255 : ℚ) - (a : ℚ)) = (((255 - a : ℤ) : ℚ)) by push_cast; ring]
        exact Int.floor_intCast _
      rw [hfl]
      omega
    rw [hufl]
  · have hmin : min v 1 = v := min_eq_left (by linarith)
    have hcl0 : rclamp v 0 1 = 0 := by rw [rclamp, if_pos h0]
    have ha : rustRound (v * 255) ≤ 0 := rustRound_nonpos (by nlinarith)
    have h00 : rustRound ((0 : ℚ) * 255) = 0 := by rw [rustRound]; norm_num
    simp only [draw_pixel, luma_spec, hmin, hcl0, h00]
    set a := rustRound (v * 255) with hadef
    have haq : ((a : ℚ)) ≤ 0 := by exact_mod_cast ha
    have hcl : rclamp (255 - (a : ℚ)) 0 255 = 255 := by
      rw [rclamp]
      split_ifs with h1 h2
      · exfalso
        linarith
      · rfl
      · have haz : (a : ℚ) = 0 := by linarith [not_lt.1 h2]
        rw [haz]
        norm_num
    rw [hcl]
    have hu : rust_as_u8 255 = 255 := by rw [rust_as_u8]; norm_num
    rw [hu]
    rfl

/-- C7 (amended): the projector maps each cell independently by
`luma = 255 - round(clamp(value, 0, 1) * 255)` to `(luma, luma, luma, 255)`;
in particular `1.0 ↦ (0,0,0,255)`, `0.0 ↦ (255,255,255,255)`, and
`0.5 ↦ (127,127,127,255)` (since `round(127.5) = 128` and `255 - 128 = 127`). -/
theorem draw_pixel_formula :
    (∀ v : ℚ, draw_pixel v = (luma_spec v, luma_spec v, luma_spec v, 255)) ∧
    draw_pixel 1 = (0, 0, 0, 255) ∧
    draw_pixel 0 = (255, 255, 255, 255) ∧
    draw_pixel (1 / 2) = (127, 127, 127, 255) :=
  ⟨draw_pixel_eq_luma_spec,
   by norm_num [draw_pixel, rustRound, rust_as_u8, rclamp, Int.toNat_ofNat],
   by norm_num [draw_pixel, rustRound, rust_as_u8, rclamp, Int.toNat_ofNat],
   by norm_num [draw_pixel, rustRound, rust_as_u8, rclamp, Int.toNat_ofNat]; rfl⟩

/-- C8: the claim's round-trip `xy(index(x, y)) == (x, y)` fails on the code:
`xy_calculator` returns `(index / width, index % width)`, i.e. `(y, x)` with
the components swapped, so `(x, y) = (1, 0)` on a width-6 grid comes back as
`(0, 1)`.  (The linear-index half of the claim, `index(x,y) = x + width*y`,
does hold by definition.) -/
theorem xy_roundtrip_swapped :
    calculate_index_from_xy 1 0 3 6 = 1 + 6 * 0 ∧
    Nannou.index_calculator 1 0 6 = 1 + 6 * 0 ∧
    Nannou.xy_calculator (Nannou.index_calculator 1 0 6) 6 = (0, 1) ∧
    Nannou.xy_calculator (Nannou.index_calculator 1 0 6) 6 ≠ (1, 0) := by
  decide

/-- The claim's edge policy, stated from the spec's words for a row-major
grid of the given width and height: a direction is absent (`none`) exactly
when the step would cross a grid edge — first/last row for North/South,
first/last column (tested as `i % w = 0` / `(i+1) % w = 0`) for West/East,
either condition for the diagonals, no wraparound — and otherwise the
neighbour is the row-major-adjacent cell. -/
def neighbour_spec (w h i : ℕ) (d : Direction) : Option ℕ :=
  match d with
  | .North => if i < w then none else some (i - w)
  | .South => if w * (h - 1) ≤ i then none else some (i + w)
  | .West => if i % w = 0 then none else some (i - 1)
  | .East => if (i + 1) % w = 0 then none else some (i + 1)
  | .NorthWest => if i < w ∨ i % w = 0 then none else some (i - w - 1)
  | .NorthEast => if i < w ∨ (i + 1) % w = 0 then none else some (i - w + 1)
  | .SouthWest => if w * (h - 1) ≤ i ∨ i % w = 0 then none else some (i + w - 1)
  | .SouthEast => if w * (h - 1) ≤ i ∨ (i + 1) % w = 0 then none else some (i + w + 1)

theorem gni_north (cells : List ℚ) (w h i : ℕ) :
    Matrix2D.get_neighbour_index ⟨cells, w, h⟩ i .North =
      if index_to_the_north (i : ℤ) (h : ℤ) (w : ℤ) < 0 ∨
          index_to_the_north (i : ℤ) (h : ℤ) (w : ℤ) > (cells.length : ℤ) then none
      else some (index_to_the_north (i : ℤ) (h : ℤ) (w : ℤ)).toNat := rfl

theorem gni_south (cells : List ℚ) (w h i : ℕ) :
    Matrix2D.get_neighbour_index ⟨cells, w, h⟩ i .South =
      if index_to_the_south (i : ℤ) (h : ℤ) (w : ℤ) < 0 ∨
          index_to_the_south (i : ℤ) (h : ℤ) (w : ℤ) > (cells.length : ℤ) then none
      else some (index_to_the_south (i : ℤ) (h : ℤ) (w : ℤ)).toNat := rfl

theorem gni_west (cells : List ℚ) (w h i : ℕ) :
    Matrix2D.get_neighbour_index ⟨cells, w, h⟩ i .West =
      if index_to_the_west (i : ℤ) (h : ℤ) (w : ℤ) < 0 ∨
          index_to_the_west (i : ℤ) (h : ℤ) (w : ℤ) > (cells.length : ℤ) then none
      else some (index_to_the_west (i : ℤ) (h : ℤ) (w : ℤ)).toNat := rfl

theorem gni_east (cells : List ℚ) (w h i : ℕ) :
    Matrix2D.get_neighbour_index ⟨cells, w, h⟩ i .East =
      if index_to_the_east (i : ℤ) (h : ℤ) (w : ℤ) < 0 ∨
          index_to_the_east (i : ℤ) (h : ℤ) (w : ℤ) > (cells.length : ℤ) then none
      else some (index_to_the_east (i : ℤ) (h : ℤ) (w : ℤ)).toNat := rfl

theorem gni_northwest (cells : List ℚ) (w h i : ℕ) :
    Matrix2D.get_neighbour_index ⟨cells, w, h⟩ i .NorthWest =
      if index_to_the_northwest (i : ℤ) (h : ℤ) (w : ℤ) < 0 ∨
          index_to_the_northwest (i : ℤ) (h : ℤ) (w : ℤ) > (cells.length : ℤ) then none
      else some (index_to_the_northwest (i : ℤ) (h : ℤ) (w : ℤ)).toNat := rfl

theorem gni_northeast (cells : List ℚ) (w h i : ℕ) :
    Matrix2D.get_neighbour_index ⟨cells, w, h⟩ i .NorthEast =
      if index_to_the_northeast (i : ℤ) (h : ℤ) (w : ℤ) < 0 ∨
          index_to_the_northeast (i : ℤ) (h : ℤ) (w : ℤ) > (cells.length : ℤ) then none
      else some (index_to_the_northeast (i : ℤ) (h : ℤ) (w : ℤ)).toNat := rfl

theorem gni_southwest (cells : List ℚ) (w h i : ℕ) :
    Matrix2D.get_neighbour_index ⟨cells, w, h⟩ i .SouthWest =
      if index_to_the_southwest (i : ℤ) (h : ℤ) (w : ℤ) < 0 ∨
          index_to_the_southwest (i : ℤ) (h : ℤ) (w : ℤ) > (cells.length : ℤ) then none
      else some (index_to_the_southwest (i : ℤ) (h : ℤ) (w : ℤ)).toNat := rfl

theorem gni_southeast (cells : List ℚ) (w h i : ℕ) :
    Matrix2D.get_neighbour_index ⟨cells, w, h⟩ i .SouthEast =
      if index_to_the_southeast (i : ℤ) (h : ℤ) (w : ℤ) < 0 ∨
          index_to_the_southeast (i : ℤ) (h : ℤ) (w : ℤ) > (cells.length : ℤ) then none
      else some (index_to_the_southeast (i : ℤ) (h : ℤ) (w : ℤ)).toNat := rfl

theorem in_range_true {i w h : ℕ} (hi : i < w * h) :
    index_is_in_range (i : ℤ) (h : ℤ) (w : ℤ) = true := by
  rw [index_is_in_range, decide_eq_true_eq]
  refine ⟨Int.natCast_nonneg i, ?_⟩
  have hc : i < h * w := by
    have := Nat.mul_comm w h
    omega
  exact_mod_cast hc

theorem first_row_true {i w h : ℕ} (hm : i < w) :
    index_is_in_first_row (i : ℤ) (h : ℤ) (w : ℤ) = true := by
  rw [index_is_in_first_row, decide_eq_true_eq]
  exact ⟨Int.natCast_nonneg i, by exact_mod_cast hm⟩

theorem first_row_false {i w h : ℕ} (hm : ¬i < w) :
    index_is_in_first_row (i : ℤ) (h : ℤ) (w : ℤ) = false := by
  rw [index_is_in_first_row, decide_eq_false_iff_not]
  rintro ⟨-, hlt⟩
  exact hm (by exact_mod_cast hlt)

theorem last_row_true {i w h : ℕ} (hi : i < w * h) (hm : w * (h - 1) ≤ i) :
    index_is_in_last_row (i : ℤ) (h : ℤ) (w : ℤ) = true := by
  rw [index_is_in_last_row, decide_eq_true_eq]
  have hh1 : 1 ≤ h := by
    rcases Nat.eq_zero_or_pos h with h0 | h0
    · subst h0; simp at hi
    · exact h0
  constructor
  · have hcast : ((w : ℤ) * ((h : ℤ) - 1)) = ((w * (h - 1) : ℕ) : ℤ) := by
      push_cast [Nat.cast_sub hh1]
      ring
    rw [hcast]
    exact_mod_cast hm
  · have hc : i < w * h := hi
    exact_mod_cast hc

theorem last_row_false {i w h : ℕ} (hm : ¬w * (h - 1) ≤ i) :
    index_is_in_last_row (i : ℤ) (h : ℤ) (w : ℤ) = false := by
  rw [index_is_in_last_row, decide_eq_false_iff_not]
  rintro ⟨hge, -⟩
  have hh1 : 1 ≤ h := by
    by_contra hh
    have hz : h = 0 := by omega
    subst hz
    rw [show ((0 : ℕ) : ℤ) - 1 = -1 by norm_num] at hge
    have : (0 : ℤ) ≤ (w : ℤ) := Int.natCast_nonneg w
    have : (0 : ℤ) ≤ (i : ℤ) := Int.natCast_nonneg i
    exact hm (by omega)
  have hcast : ((w : ℤ) * ((h : ℤ) - 1)) = ((w * (h - 1) : ℕ) : ℤ) := by
    push_cast [Nat.cast_sub hh1]
    ring
  rw [hcast] at hge
  exact hm (by exact_mod_cast hge)

theorem first_col_true {i w h : ℕ} (hi : i < w * h) (hm : i % w = 0) :
    index_is_in_first_column (i : ℤ) (h : ℤ) (w : ℤ) = true := by
  rw [index_is_in_first_column, in_range_true hi, Bool.true_and, decide_eq_true_eq]
  rw [show ((i : ℤ) % (w : ℤ)) = ((i % w : ℕ) : ℤ) by push_cast; ring]
  exact_mod_cast hm

theorem first_col_false {i w h : ℕ} (hm : i % w ≠ 0) :
    index_is_in_first_column (i : ℤ) (h : ℤ) (w : ℤ) = false := by
  rw [index_is_in_first_column]
  cases hr : index_is_in_range (i : ℤ) (h : ℤ) (w : ℤ) with
  | false => rw [Bool.false_and]
  | true =>
    rw [Bool.true_and, decide_eq_false_iff_not]
    rw [show ((i : ℤ) % (w : ℤ)) = ((i % w : ℕ) : ℤ) by push_cast; ring]
    exact_mod_cast hm

theorem last_col_true {i w h : ℕ} (hi : i < w * h) (hm : (i + 1) % w = 0) :
    index_is_in_last_column (i : ℤ) (h : ℤ) (w : ℤ) = true := by
  rw [index_is_in_last_column, in_range_true hi, Bool.true_and, decide_eq_true_eq]
  rw [show ((i : ℤ) + 1) % (w : ℤ) = (((i + 1) % w : ℕ) : ℤ) by push_cast; ring]
  exact_mod_cast hm

theorem last_col_false {i w h : ℕ} (hm : (i + 1) % w ≠ 0) :
    index_is_in_last_column (i : ℤ) (h : ℤ) (w : ℤ) = false := by
  rw [index_is_in_last_column]
  cases hr : index_is_in_range (i : ℤ) (h : ℤ) (w : ℤ) with
  | false => rw [Bool.false_and]
  | true =>
    rw [Bool.true_and, decide_eq_false_iff_not]
    rw [show ((i : ℤ) + 1) % (w : ℤ) = (((i + 1) % w : ℕ) : ℤ) by push_cast; ring]
    exact_mod_cast hm

theorem north_eq {i w h : ℕ} (hi : i < w * h) :
    index_to_the_north (i : ℤ) (h : ℤ) (w : ℤ) =
      if i < w then -1 else (i : ℤ) - w := by
  rw [index_to_the_north, in_range_true hi]
  by_cases hfr : i < w
  · rw [first_row_true hfr]
    simp [hfr]
  · rw [first_row_false hfr]
    simp [hfr]

theorem south_eq {i w h : ℕ} (hi : i < w * h) :
    index_to_the_south (i : ℤ) (h : ℤ) (w : ℤ) =
      if w * (h - 1) ≤ i then -1 else (i : ℤ) + w := by
  rw [index_to_the_south, in_range_true hi]
  by_cases hlr : w * (h - 1) ≤ i
  · rw [last_row_true hi hlr]
    simp [hlr]
  · rw [last_row_false hlr]
    simp [hlr]

theorem west_eq {i w h : ℕ} (_hi : i < w * h) :
    index_to_the_west (i : ℤ) (h : ℤ) (w : ℤ) =
      if i % w = 0 then -1 else (i : ℤ) - 1 := by
  rw [index_to_the_west]
  by_cases hm : i % w = 0
  · rw [first_col_true _hi hm]
    simp [hm]
  · rw [first_col_false hm]
    simp [hm]

theorem east_eq {i w h : ℕ} (_hi : i < w * h) :
    index_to_the_east (i : ℤ) (h : ℤ) (w : ℤ) =
      if (i + 1) % w = 0 then -1 else (i : ℤ) + 1 := by
  rw [index_to_the_east]
  by_cases hm : (i + 1) % w = 0
  · rw [last_col_true _hi hm]
    simp [hm]
  · rw [last_col_false hm]
    simp [hm]

theorem northwest_eq {i w h : ℕ} (hi : i < w * h) :
    index_to_the_northwest (i : ℤ) (h : ℤ) (w : ℤ) =
      if i < w ∨ i % w = 0 then -1 else (i : ℤ) - w - 1 := by
  rw [index_to_the_northwest]
  simp only [north_eq hi]
  by_cases hm : i % w = 0
  · rw [first_col_true hi hm]
    simp [hm]
  · rw [first_col_false hm]
    by_cases hfr : i < w
    · simp [hfr]
    · have hne : (i : ℤ) - w ≠ -1 := by
        have : w ≤ i := not_lt.1 hfr
        omega
      simp [hfr, hm, hne]

theorem northeast_eq {i w h : ℕ} (hi : i < w * h) :
    index_to_the_northeast (i : ℤ) (h : ℤ) (w : ℤ) =
      if i < w ∨ (i + 1) % w = 0 then -1 else (i : ℤ) - w + 1 := by
  rw [index_to_the_northeast]
  simp only [north_eq hi]
  by_cases hm : (i + 1) % w = 0
  · rw [last_col_true hi hm]
    simp [hm]
  · rw [last_col_false hm]
    by_cases hfr : i < w
    · simp [hfr]
    · have hne : (i : ℤ) - w ≠ -1 := by
        have : w ≤ i := not_lt.1 hfr
        omega
      simp [hfr, hm, hne]

theorem southwest_eq {i w h : ℕ} (hi : i < w * h) :
    index_to_the_southwest (i : ℤ) (h : ℤ) (w : ℤ) =
      if w * (h - 1) ≤ i ∨ i % w = 0 then -1 else (i : ℤ) + w - 1 := by
  rw [index_to_the_southwest]
  simp only [south_eq hi]
  by_cases hm : i % w = 0
  · rw [first_col_true hi hm]
    simp [hm]
  · rw [first_col_false hm]
    by_cases hlr : w * (h - 1) ≤ i
    · simp [hlr]
    · have hne : (i : ℤ) + w ≠ -1 := by
        have h1 : (0 : ℤ) ≤ (i : ℤ) := Int.natCast_nonneg i
        have h2 : (0 : ℤ) ≤ (w : ℤ) := Int.natCast_nonneg w
        omega
      simp [hlr, hm, hne]

theorem southeast_eq {i w h : ℕ} (hi : i < w * h) :
    index_to_the_southeast (i : ℤ) (h : ℤ) (w : ℤ) =
      if w * (h - 1) ≤ i ∨ (i + 1) % w = 0 then -1 else (i : ℤ) + w + 1 := by
  rw [index_to_the_southeast]
  simp only [south_eq hi]
  by_cases hm : (i + 1) % w = 0
  · rw [last_col_true hi hm]
    simp [hm]
  · rw [last_col_false hm]
    by_cases hlr : w * (h - 1) ≤ i
    · simp [hlr]
    · have hne : (i : ℤ) + w ≠ -1 := by
        have h1 : (0 : ℤ) ≤ (i : ℤ) := Int.natCast_nonneg i
        have h2 : (0 : ℤ) ≤ (w : ℤ) := Int.natCast_nonneg w
        omega
      simp [hlr, hm, hne]

theorem neighbour_spec_lt {w h i : ℕ} (hi : i < w * h) (d : Direction) (n : ℕ)
    (hn : neighbour_spec w h i d = some n) : n < w * h := by
  have hw : 0 < w := by
    rcases Nat.eq_zero_or_pos w with h0 | h0
    · subst h0; simp at hi
    · exact h0
  have hh : 0 < h := by
    rcases Nat.eq_zero_or_pos h with h0 | h0
    · subst h0; simp at hi
    · exact h0
  obtain ⟨h1, rfl⟩ : ∃ h1, h = h1 + 1 := ⟨h - 1, by omega⟩
  have hsplit : w * (h1 + 1) = w * h1 + w := by ring
  have hsub : (h1 + 1) - 1 = h1 := by omega
  cases d with
  | North =>
    rw [neighbour_spec] at hn
    split_ifs at hn with hc
    cases hn
    omega
  | South =>
    rw [neighbour_spec, hsub] at hn
    split_ifs at hn with hc
    cases hn
    omega
  | West =>
    rw [neighbour_spec] at hn
    split_ifs at hn with hc
    cases hn
    omega
  | East =>
    rw [neighbour_spec] at hn
    split_ifs at hn with hc
    cases hn
    have hne : i + 1 ≠ w * (h1 + 1) := by
      intro he
      exact hc (he ▸ Nat.mul_mod_right w (h1 + 1))
    omega
  | NorthWest =>
    rw [neighbour_spec] at hn
    split_ifs at hn with hc
    cases hn
    omega
  | NorthEast =>
    rw [neighbour_spec] at hn
    split_ifs at hn with hc
    cases hn
    push_neg at hc
    omega
  | SouthWest =>
    rw [neighbour_spec, hsub] at hn
    split_ifs at hn with hc
    cases hn
    push_neg at hc
    omega
  | SouthEast =>
    rw [neighbour_spec, hsub] at hn
    split_ifs at hn with hc
    cases hn
    push_neg at hc
    have hne : i + 1 ≠ w * h1 := by
      intro he
      exact hc.2 (he ▸ Nat.mul_mod_right w h1)
    omega

theorem get_neighbour_index_eq_spec (m : Matrix2D)
    (hlen : m.cells.length = m.width * m.height) (i : ℕ)
    (hi : i < m.width * m.height) (d : Direction) :
    m.get_neighbour_index i d = neighbour_spec m.width m.height i d := by
  obtain ⟨cells, w, h⟩ := m
  simp only at hlen hi ⊢
  have hw : 0 < w := by
    rcases Nat.eq_zero_or_pos w with h0 | h0
    · subst h0; simp at hi
    · exact h0
  have hmodlt : i % w ≤ i := Nat.mod_le i w
  have hmod2 : i % w < w := Nat.mod_lt i hw
  have hmodlt1 : (i + 1) % w ≤ i + 1 := Nat.mod_le (i + 1) w
  obtain ⟨h1, rfl⟩ : ∃ h1, h = h1 + 1 := by
    rcases Nat.eq_zero_or_pos h with h0 | h0
    · subst h0; simp at hi
    · exact ⟨h - 1, by omega⟩
  have hsplit : w * (h1 + 1) = w * h1 + w := by ring
  have hsub : (h1 + 1) - 1 = h1 := by omega
  cases d with
  | North =>
    rw [gni_north, north_eq hi, hlen, neighbour_spec]
    by_cases hc : i < w
    · rw [if_pos hc, if_pos hc, if_pos (by norm_num)]
    · rw [if_neg hc, if_neg hc, if_neg (by omega)]
      rw [Option.some.injEq]
      omega
  | South =>
    rw [gni_south, south_eq hi, hlen, neighbour_spec, hsub]
    by_cases hc : w * h1 ≤ i
    · rw [if_pos hc, if_pos hc, if_pos (by norm_num)]
    · rw [if_neg hc, if_neg hc, if_neg (by omega)]
      rw [Option.some.injEq]
      omega
  | West =>
    rw [gni_west, west_eq hi, hlen, neighbour_spec]
    by_cases hc : i % w = 0
    · rw [if_pos hc, if_pos hc, if_pos (by norm_num)]
    · have h1le : 1 ≤ i := by
        rcases Nat.eq_zero_or_pos i with h0 | h0
        · exfalso; exact hc (by simp [h0])
        · exact h0
      rw [if_neg hc, if_neg hc, if_neg (by omega)]
      rw [Option.some.injEq]
      omega
  | East =>
    rw [gni_east, east_eq hi, hlen, neighbour_spec]
    by_cases hc : (i + 1) % w = 0
    · rw [if_pos hc, if_pos hc, if_pos (by norm_num)]
    · have hne : i + 1 ≠ w * (h1 + 1) := by
        intro he
        exact hc (he ▸ Nat.mul_mod_right w (h1 + 1))
      rw [if_neg hc, if_neg hc, if_neg (by omega)]
      rw [Option.some.injEq]
      omega
  | NorthWest =>
    rw [gni_northwest, northwest_eq hi, hlen, neighbour_spec]
    by_cases hc : i < w ∨ i % w = 0
    · rw [if_pos hc, if_pos hc, if_pos (by norm_num)]
    · push_neg at hc
      have hge : w + 1 ≤ i := by
        rcases Nat.lt_or_ge i (w + 1) with hcase | hcase
        · exfalso
          have hiw : i = w := by omega
          exact hc.2 (by rw [hiw]; exact Nat.mod_self w)
        · exact hcase
      have hcn : ¬(i < w ∨ i % w = 0) := by push_neg; exact hc
      rw [if_neg hcn, if_neg hcn, if_neg (by omega)]
      rw [Option.some.injEq]
      omega
  | NorthEast =>
    rw [gni_northeast, northeast_eq hi, hlen, neighbour_spec]
    by_cases hc : i < w ∨ (i + 1) % w = 0
    · rw [if_pos hc, if_pos hc, if_pos (by norm_num)]
    · push_neg at hc
      have hcn : ¬(i < w ∨ (i + 1) % w = 0) := by push_neg; exact hc
      rw [if_neg hcn, if_neg hcn, if_neg (by omega)]
      rw [Option.some.injEq]
      omega
  | SouthWest =>
    rw [gni_southwest, southwest_eq hi, hlen, neighbour_spec, hsub]
    by_cases hc : w * h1 ≤ i ∨ i % w = 0
    · rw [if_pos hc, if_pos hc, if_pos (by norm_num)]
    · push_neg at hc
      have h1le : 1 ≤ i := by
        rcases Nat.eq_zero_or_pos i with h0 | h0
        · exfalso; exact hc.2 (by simp [h0])
        · exact h0
      have hcn : ¬(w * h1 ≤ i ∨ i % w = 0) := by push_neg; exact hc
      rw [if_neg hcn, if_neg hcn, if_neg (by omega)]
      rw [Option.some.injEq]
      omega
  | SouthEast =>
    rw [gni_southeast, southeast_eq hi, hlen, neighbour_spec, hsub]
    by_cases hc : w * h1 ≤ i ∨ (i + 1) % w = 0
    · rw [if_pos hc, if_pos hc, if_pos (by norm_num)]
    · push_neg at hc
      have hne : i + 1 ≠ w * h1 := by
        intro he
        exact hc.2 (he ▸ Nat.mul_mod_right w h1)
      have hcn : ¬(w * h1 ≤ i ∨ (i + 1) % w = 0) := by push_neg; exact hc
      rw [if_neg hcn, if_neg hcn, if_neg (by omega)]
      rw [Option.some.injEq]
      omega

/-- C4: for every grid whose cell count matches its dimensions, every
in-range cell index and each of the 8 compass directions, the neighbour
lookup of `src/matrix.rs` returns `None` exactly when the step would cross a
grid edge — first/last row for North/South, first/last column for West/East,
either condition for the diagonals, no wraparound — and otherwise returns
the row-major-adjacent cell index, which is again in range. -/
theorem neighbour_lookup_matches_edge_spec (m : Matrix2D)
    (hlen : m.cells.length = m.width * m.height) (i : ℕ)
    (hi : i < m.width * m.height) (d : Direction) :
    m.get_neighbour_index i d = neighbour_spec m.width m.height i d ∧
    ∀ n, m.get_neighbour_index i d = some n → n < m.width * m.height := by
  have he := get_neighbour_index_eq_spec m hlen i hi d
  exact ⟨he, fun n hn => neighbour_spec_lt hi d n (he ▸ hn)⟩

/-- C4 witness: the claim's concrete 6-wide, 3-high instances — index 3 has
no North, NorthEast or NorthWest neighbour; index 9 has North 3, NorthEast 4
and South 15. -/
theorem neighbour_lookup_matches_edge_spec_witness :
    (Matrix2D.new 3 6).get_neighbour_index 3 .North = none ∧
    (Matrix2D.new 3 6).get_neighbour_index 3 .NorthEast = none ∧
    (Matrix2D.new 3 6).get_neighbour_index 3 .NorthWest = none ∧
    (Matrix2D.new 3 6).get_neighbour_index 9 .North = some 3 ∧
    (Matrix2D.new 3 6).get_neighbour_index 9 .NorthEast = some 4 ∧
    (Matrix2D.new 3 6).get_neighbour_index 9 .South = some 15 :=
  ⟨((neighbour_lookup_matches_edge_spec (Matrix2D.new 3 6) (by decide) 3 (by decide)
      .North).1).trans (by decide),
   ((neighbour_lookup_matches_edge_spec (Matrix2D.new 3 6) (by decide) 3 (by decide)
      .NorthEast).1).trans (by decide),
   ((neighbour_lookup_matches_edge_spec (Matrix2D.new 3 6) (by decide) 3 (by decide)
      .NorthWest).1).trans (by decide),
   ((neighbour_lookup_matches_edge_spec (Matrix2D.new 3 6) (by decide) 9 (by decide)
      .North).1).trans (by decide),
   ((neighbour_lookup_matches_edge_spec (Matrix2D.new 3 6) (by decide) 9 (by decide)
      .NorthEast).1).trans (by decide),
   ((neighbour_lookup_matches_edge_spec (Matrix2D.new 3 6) (by decide) 9 (by decide)
      .South).1).trans (by decide)⟩

theorem iround_zero (num : ℤ) : iround num 0 = 0 := rfl

theorem iround_between (d : ℤ) (k n : ℕ) (hk : k ≤ n) :
    min 0 d ≤ iround ((k : ℤ) * d) n ∧ iround ((k : ℤ) * d) n ≤ max 0 d := by
  rcases Nat.eq_zero_or_pos n with hn | hn
  · subst hn
    rw [iround_zero]
    constructor
    · exact min_le_left 0 d
    · exact le_max_left 0 d
  · rw [iround, if_neg (by omega)]
    have h2n : (0 : ℤ) < 2 * (n : ℤ) := by
      have : (0 : ℤ) < (n : ℤ) := by exact_mod_cast hn
      omega
    have hdiv : (2 * ((n : ℤ) * d) + (n : ℤ)) / (2 * (n : ℤ)) = d := by
      rw [show 2 * ((n : ℤ) * d) + (n : ℤ) = (n : ℤ) + d * (2 * (n : ℤ)) by ring]
      rw [Int.add_mul_ediv_right _ _ (by omega)]
      rw [Int.ediv_eq_zero_of_lt (by omega) (by omega)]
      omega
    rcases le_or_lt 0 d with hd | hd
    · have hkd : (k : ℤ) * d ≤ (n : ℤ) * d := by
        have hkn : (k : ℤ) ≤ (n : ℤ) := by exact_mod_cast hk
        exact mul_le_mul_of_nonneg_right hkn hd
      constructor
      · have : (0 : ℤ) ≤ (2 * ((k : ℤ) * d) + (n : ℤ)) / (2 * (n : ℤ)) :=
          Int.ediv_nonneg (by nlinarith) (by omega)
        omega
      · have hmono : (2 * ((k : ℤ) * d) + (n : ℤ)) / (2 * (n : ℤ)) ≤
            (2 * ((n : ℤ) * d) + (n : ℤ)) / (2 * (n : ℤ)) :=
          Int.ediv_le_ediv h2n (by omega)
        rw [hdiv] at hmono
        omega
    · have hkd : (n : ℤ) * d ≤ (k : ℤ) * d := by
        have hkn : (k : ℤ) ≤ (n : ℤ) := by exact_mod_cast hk
        exact mul_le_mul_of_nonpos_right hkn (by omega)
      constructor
      · have hmono : (2 * ((n : ℤ) * d) + (n : ℤ)) / (2 * (n : ℤ)) ≤
            (2 * ((k : ℤ) * d) + (n : ℤ)) / (2 * (n : ℤ)) :=
          Int.ediv_le_ediv h2n (by omega)
        rw [hdiv] at hmono
        omega
      · have hmono : (2 * ((k : ℤ) * d) + (n : ℤ)) / (2 * (n : ℤ)) ≤
            (0 + (n : ℤ)) / (2 * (n : ℤ)) :=
          Int.ediv_le_ediv h2n (by nlinarith)
        have hz : ((0 : ℤ) + (n : ℤ)) / (2 * (n : ℤ)) = 0 :=
          Int.ediv_eq_zero_of_lt (by omega) (by omega)
        rw [hz] at hmono
        omega

theorem bresenham_mem_bounds {p c r : ℤ × ℤ} (hr : r ∈ bresenham p c) :
    min p.1 c.1 ≤ r.1 ∧ r.1 ≤ max p.1 c.1 ∧ min p.2 c.2 ≤ r.2 ∧ r.2 ≤ max p.2 c.2 := by
  rw [bresenham] at hr
  simp only [List.mem_map, List.mem_range] at hr
  obtain ⟨k, hk, rfl⟩ := hr
  have hk' : k ≤ max (c.1 - p.1).natAbs (c.2 - p.2).natAbs := by omega
  have h1 := iround_between (c.1 - p.1) k (max (c.1 - p.1).natAbs (c.2 - p.2).natAbs) hk'
  have h2 := iround_between (c.2 - p.2) k (max (c.1 - p.1).natAbs (c.2 - p.2).natAbs) hk'
  refine ⟨by omega, by omega, by omega, by omega⟩

/-- C6: for every grid matching its dimensions and every pair of in-bounds
previous and current pointer positions, every rasterized line coordinate
stays inside `[0, width) × [0, height)` — so any coordinate outside it is
(vacuously) skipped, the code's clip test does not fire, the post-clip cell
lookup cannot return `None`, and every write lands at a linear index
strictly inside the grid. -/
theorem paint_line_clip_safe (base : Matrix2D) (w h : ℕ)
    (hlen : base.cells.length = w * h) (p c : ℤ × ℤ)
    (hp1 : 0 ≤ p.1) (hp2 : p.1 < (w : ℤ)) (hp3 : 0 ≤ p.2) (hp4 : p.2 < (h : ℤ))
    (hc1 : 0 ≤ c.1) (hc2 : c.1 < (w : ℤ)) (hc3 : 0 ≤ c.2) (hc4 : c.2 < (h : ℤ)) :
    ∀ q ∈ bresenham p c,
      ((q.1 < 0 ∨ (w : ℤ) ≤ q.1 ∨ q.2 < 0 ∨ (h : ℤ) ≤ q.2) → line_skip w h q = true) ∧
      line_skip w h q = false ∧
      calculate_index_from_xy q.1.toNat q.2.toNat h w < w * h ∧
      (base.get_by_index (calculate_index_from_xy q.1.toNat q.2.toNat h w)).isSome := by
  intro q hq
  obtain ⟨hx1, hx2, hy1, hy2⟩ := bresenham_mem_bounds hq
  have hq1 : 0 ≤ q.1 := by omega
  have hq2 : q.1 < (w : ℤ) := by omega
  have hq3 : 0 ≤ q.2 := by omega
  have hq4 : q.2 < (h : ℤ) := by omega
  have hw : 0 < w := by omega
  have hh : 0 < h := by omega
  have hidx : calculate_index_from_xy q.1.toNat q.2.toNat h w < w * h := by
    rw [calculate_index_from_xy]
    have hmul : w * q.2.toNat ≤ w * (h - 1) := Nat.mul_le_mul_left w (by omega)
    have hsplit : w * h = w * (h - 1) + w := by
      obtain ⟨h1, rfl⟩ : ∃ h1, h = h1 + 1 := ⟨h - 1, by omega⟩
      simp [Nat.mul_succ]
    omega
  refine ⟨fun hout => absurd hout (by omega), ?_, hidx, ?_⟩
  · rw [line_skip]
    simp only [Bool.or_eq_false_iff, decide_eq_false_iff_not]
    refine ⟨⟨⟨by omega, by omega⟩, by omega⟩, by omega⟩
  · rw [Matrix2D.get_by_index]
    have hlt : calculate_index_from_xy q.1.toNat q.2.toNat h w < base.cells.length := by
      omega
    rw [List.get?_eq_get hlt]
    rfl

/-- C6 witness: the starting point of a concrete in-bounds stroke on a 6×3
grid is not clipped and its cell lookup succeeds. -/
theorem paint_line_clip_safe_witness :
    line_skip 6 3 (0, 0) = false ∧
    ((Matrix2D.new 3 6).get_by_index
      (calculate_index_from_xy ((0 : ℤ), (0 : ℤ)).1.toNat ((0 : ℤ), (0 : ℤ)).2.toNat
        3 6)).isSome :=
  ⟨(paint_line_clip_safe (Matrix2D.new 3 6) 6 3 (by decide) (0, 0) (5, 2)
      (by decide) (by decide) (by decide) (by decide) (by decide) (by decide)
      (by decide) (by decide) (0, 0) (by decide)).2.1,
   (paint_line_clip_safe (Matrix2D.new 3 6) 6 3 (by decide) (0, 0) (5, 2)
      (by decide) (by decide) (by decide) (by decide) (by decide) (by decide)
      (by decide) (by decide) (0, 0) (by decide)).2.2.2⟩

theorem set_by_index_dims (m : Matrix2D) (i : ℕ) (v : ℚ) :
    (m.set_by_index i v).cells.length = m.cells.length ∧
    (m.set_by_index i v).width = m.width ∧ (m.set_by_index i v).height = m.height := by
  simp [Matrix2D.set_by_index]

theorem paint_line_dims (base : Matrix2D) (w h : ℕ) (pts : List (ℤ × ℤ)) (val : ℚ) :
    (paint_line base w h pts val).cells.length = base.cells.length ∧
    (paint_line base w h pts val).width = base.width ∧
    (paint_line base w h pts val).height = base.height := by
  induction pts generalizing base with
  | nil => simp [paint_line]
  | cons q qs ih =>
    simp only [paint_line, List.foldl_cons] at ih ⊢
    by_cases hs : line_skip w h q
    · rw [if_pos hs]
      exact ih base
    · rw [if_neg hs]
      obtain ⟨l1, w1, h1⟩ :=
        ih (base.set_by_index (calculate_index_from_xy q.1.toNat q.2.toNat h w) val)
      obtain ⟨l2, w2, h2⟩ :=
        set_by_index_dims base (calculate_index_from_xy q.1.toNat q.2.toNat h w) val
      exact ⟨l1.trans l2, w1.trans w2, h1.trans h2⟩

theorem add_spill_dims (m : Matrix2D) (i : ℕ) (s : ℚ) (d : Direction) :
    (add_spill m i s d).cells.length = m.cells.length ∧
    (add_spill m i s d).width = m.width ∧ (add_spill m i s d).height = m.height := by
  cases hn : m.get_neighbour_index i d with
  | none => simp [add_spill, hn]
  | some ni =>
    cases hg : m.cells[ni]? with
    | none => simp [add_spill, hn, hg]
    | some v => simp [add_spill, hn, hg]

theorem foldl_add_spill_dims (ds : List Direction) (m : Matrix2D) (i : ℕ) (s : ℚ) :
    (ds.foldl (fun m2 d => add_spill m2 i s d) m).cells.length = m.cells.length ∧
    (ds.foldl (fun m2 d => add_spill m2 i s d) m).width = m.width ∧
    (ds.foldl (fun m2 d => add_spill m2 i s d) m).height = m.height := by
  induction ds generalizing m with
  | nil => simp
  | cons d ds ih =>
    rw [List.foldl_cons]
    obtain ⟨l1, w1, h1⟩ := ih (add_spill m i s d)
    obtain ⟨l2, w2, h2⟩ := add_spill_dims m i s d
    exact ⟨l1.trans l2, w1.trans w2, h1.trans h2⟩

theorem scatter_dims (modifier : Matrix2D) (spills : List (ℕ × ℚ)) :
    (scatter modifier spills).cells.length = modifier.cells.length ∧
    (scatter modifier spills).width = modifier.width ∧
    (scatter modifier spills).height = modifier.height := by
  induction spills generalizing modifier with
  | nil => simp [scatter]
  | cons sp sps ih =>
    simp only [scatter, List.foldl_cons] at ih ⊢
    obtain ⟨l1, w1, h1⟩ :=
      ih (spill_directions.foldl (fun m2 d => add_spill m2 sp.1 sp.2 d) modifier)
    obtain ⟨l2, w2, h2⟩ := foldl_add_spill_dims spill_directions modifier sp.1 sp.2
    exact ⟨l1.trans l2, w1.trans w2, h1.trans h2⟩

theorem merge_base_length (base modifier : List ℚ) (ft : ℚ) :
    (merge_base base modifier ft).length = base.length := by
  induction base generalizing modifier with
  | nil => cases modifier <;> rfl
  | cons b bs ih =>
    cases modifier with
    | nil => rfl
    | cons mv ms => simp [merge_base, ih ms]

theorem reset_modifier_length (cells : List ℚ) :
    (reset_modifier cells).length = cells.length := by
  simp [reset_modifier]

theorem spill_pass_fst_length (cells : List ℚ) :
    (spill_pass cells).1.length = cells.length := by
  simp [spill_pass]

theorem diffusion_phase_dims (base modifier : Matrix2D) (ft : ℚ) :
    (diffusion_phase base modifier ft).1.cells.length = base.cells.length ∧
    (diffusion_phase base modifier ft).1.width = base.width ∧
    (diffusion_phase base modifier ft).1.height = base.height ∧
    (diffusion_phase base modifier ft).2.cells.length = modifier.cells.length ∧
    (diffusion_phase base modifier ft).2.width = modifier.width ∧
    (diffusion_phase base modifier ft).2.height = modifier.height := by
  obtain ⟨sl, sw, sh⟩ := scatter_dims modifier (spill_pass base.cells).2
  refine ⟨?_, rfl, rfl, ?_, ?_, ?_⟩
  · simp only [diffusion_phase]
    rw [merge_base_length, spill_pass_fst_length]
  · simp only [diffusion_phase]
    rw [reset_modifier_length, sl]
  · simp only [diffusion_phase]
    rw [sw]
  · simp only [diffusion_phase]
    rw [sh]

theorem paint_phase_dims (model : Model) :
    (paint_phase model).base_matrix.cells.length = model.base_matrix.cells.length ∧
    (paint_phase model).base_matrix.width = model.base_matrix.width ∧
    (paint_phase model).base_matrix.height = model.base_matrix.height ∧
    (paint_phase model).modifier_matrix = model.modifier_matrix := by
  simp only [paint_phase]
  by_cases h1 : (model.left_click_is_held_down || model.right_click_is_held_down) = true
  · rw [if_pos h1]
    by_cases h2 : model.window_rect.contains (usize_of model.mouse_xy.1)
        (usize_of model.mouse_xy.2) = true
    · rw [if_pos h2]
      cases hpm : model.previous_mouse_xy with
      | some pxy =>
        simp only [hpm]
        obtain ⟨l1, w1, hh1⟩ := paint_line_dims model.base_matrix model.window_rect.width
          model.window_rect.height
          (bresenham (rustRound pxy.1, rustRound pxy.2)
            ((usize_of model.mouse_xy.1 : ℤ), (usize_of model.mouse_xy.2 : ℤ)))
          (paint_value model.left_click_is_held_down model.right_click_is_held_down)
        exact ⟨l1, w1, hh1, trivial⟩
      | none =>
        simp only [hpm]
        obtain ⟨l1, w1, hh1⟩ := set_by_index_dims model.base_matrix
          (calculate_index_from_xy (usize_of model.mouse_xy.1) (usize_of model.mouse_xy.2)
            model.window_rect.height model.window_rect.width)
          (paint_value model.left_click_is_held_down model.right_click_is_held_down)
        exact ⟨l1, w1, hh1, trivial⟩
    · rw [if_neg h2]
      exact ⟨rfl, rfl, rfl, rfl⟩
  · rw [if_neg h1]
    exact ⟨rfl, rfl, rfl, rfl⟩

/-- C10: for every model state and every frame time, `Model::update` leaves
the width, height and cell count of both the base and the modifier matrix
unchanged — the grids are never reallocated or resized by the per-frame
update — so the base/modifier length equality asserted before an update
still holds after it. -/
theorem update_preserves_dims (model : Model) (frame_time : ℚ) :
    (model.update frame_time).base_matrix.cells.length =
      model.base_matrix.cells.length ∧
    (model.update frame_time).base_matrix.width = model.base_matrix.width ∧
    (model.update frame_time).base_matrix.height = model.base_matrix.height ∧
    (model.update frame_time).modifier_matrix.cells.length =
      model.modifier_matrix.cells.length ∧
    (model.update frame_time).modifier_matrix.width = model.modifier_matrix.width ∧
    (model.update frame_time).modifier_matrix.height = model.modifier_matrix.height ∧
    (model.base_matrix.cells.length = model.modifier_matrix.cells.length →
      (model.update frame_time).base_matrix.cells.length =
        (model.update frame_time).modifier_matrix.cells.length) := by
  obtain ⟨pl, pw, ph, pm⟩ := paint_phase_dims model
  obtain ⟨dl, dw, dh, ml, mw, mh⟩ := diffusion_phase_dims
    (paint_phase model).base_matrix (paint_phase model).modifier_matrix frame_time
  simp only [Model.update]
  refine ⟨?_, ?_, ?_, ?_, ?_, ?_, ?_⟩
  · rw [dl, pl]
  · rw [dw, pw]
  · rw [dh, ph]
  · rw [ml, pm]
  · rw [mw, pm]
  · rw [mh, pm]
  · intro hequal
    rw [dl, pl, ml, pm, hequal]

/-- C10 witness: dimension preservation at a concrete painting state. -/
theorem update_preserves_dims_witness :
    ((Model.mk (Matrix2D.new 3 6) true (Matrix2D.new 3 6) (2, 1) (some (0, 0)) false
        (Rect.mk 6 3)).update (1 / 10)).base_matrix.cells.length =
      (Matrix2D.new 3 6).cells.length ∧
    ((Model.mk (Matrix2D.new 3 6) true (Matrix2D.new 3 6) (2, 1) (some (0, 0)) false
        (Rect.mk 6 3)).update (1 / 10)).base_matrix.width = (Matrix2D.new 3 6).width ∧
    ((Model.mk (Matrix2D.new 3 6) true (Matrix2D.new 3 6) (2, 1) (some (0, 0)) false
        (Rect.mk 6 3)).update (1 / 10)).base_matrix.height = (Matrix2D.new 3 6).height ∧
    ((Model.mk (Matrix2D.new 3 6) true (Matrix2D.new 3 6) (2, 1) (some (0, 0)) false
        (Rect.mk 6 3)).update (1 / 10)).modifier_matrix.cells.length =
      (Matrix2D.new 3 6).cells.length ∧
    ((Model.mk (Matrix2D.new 3 6) true (Matrix2D.new 3 6) (2, 1) (some (0, 0)) false
        (Rect.mk 6 3)).update (1 / 10)).modifier_matrix.width = (Matrix2D.new 3 6).width ∧
    ((Model.mk (Matrix2D.new 3 6) true (Matrix2D.new 3 6) (2, 1) (some (0, 0)) false
        (Rect.mk 6 3)).update (1 / 10)).modifier_matrix.height = (Matrix2D.new 3 6).height ∧
    ((Matrix2D.new 3 6).cells.length = (Matrix2D.new 3 6).cells.length →
      ((Model.mk (Matrix2D.new 3 6) true (Matrix2D.new 3 6) (2, 1) (some (0, 0)) false
          (Rect.mk 6 3)).update (1 / 10)).base_matrix.cells.length =
        ((Model.mk (Matrix2D.new 3 6) true (Matrix2D.new 3 6) (2, 1) (some (0, 0)) false
            (Rect.mk 6 3)).update (1 / 10)).modifier_matrix.cells.length) :=
  update_preserves_dims
    (Model.mk (Matrix2D.new 3 6) true (Matrix2D.new 3 6) (2, 1) (some (0, 0)) false
      (Rect.mk 6 3)) (1 / 10)

/-- C9: the edge-aware neighbour lookup of `src/matrix.rs` and the
modulo-based one of `nannou src/matrix.rs` are not equivalent: on a 6×3 grid
the South neighbour of in-range index 9 differs (15 versus 3, since the
nannou revision's `index_to_the_south` computes `index - width`). -/
theorem neighbour_impls_differ :
    ∃ (m : Matrix2D) (i : ℕ) (d : Direction),
      m.cells.length = m.width * m.height ∧ i < m.width * m.height ∧
      m.get_neighbour_index i d ≠ Nannou.get_neighbour_index m i d :=
  ⟨Matrix2D.new 3 6, 9, .South, by decide⟩

end Diffuser
